import Mathlib

/-!
Verification of the VK photo-backup pipeline (src/main.py).

The development shallowly embeds the program: VK photo metadata becomes the
structures `SizeVariant` and `Photo`; Python's `max(..., key=...)` becomes a
left fold that replaces the current best only on a strictly larger key (so the
first maximal element wins); `list.sort(key=..., reverse=True)` becomes
`List.mergeSort` with the reversed comparison (stable, like CPython's sort);
the HTTP clients become functions over explicit response/environment values
returning `Except Err`, with a trace of the outgoing transfer calls; the
manifest file becomes an explicit `Option (List ManifestEntry)` component of
the run's result.
-/

/-- Errors a run can surface.  `httpStatus` and `transport` correspond to the
spec's RemoteServiceError (requests.HTTPError from raise_for_status, or a
transport-level failure); `invalidUrl` is the client-side error requests
raises when the URL is None; `valueError` is Python's max() on an empty
sequence; `attributeError` is calling .get on a non-dict value. -/
inductive Err where
  | httpStatus (code : Nat)
  | transport
  | invalidUrl
  | valueError
  | attributeError
deriving DecidableEq, Repr

/-- One rendition of a photo: an element of photo['sizes'] in the VK payload. -/
structure SizeVariant where
  width : Nat
  height : Nat
  url : String
  type : String
deriving DecidableEq, Repr

/-- One photo as consumed by the orchestrator: its size variants, its like
count (photo['likes']['count']) and its creation timestamp in epoch seconds
UTC (photo['date']). -/
structure Photo where
  sizes : List SizeVariant
  likes : Nat
  date : Nat
deriving DecidableEq, Repr

/-- The area key used by get_max_size_photo: lambda x: x['width'] * x['height']. -/
def sizeKey (v : SizeVariant) : Nat := v.width * v.height

/-- One step of Python's max: the running best is replaced only when the new
element's key is strictly greater, so ties keep the earlier element. -/
def pyMaxStep (key : α → Nat) (best y : α) : α :=
  if key y > key best then y else best

/-- Python's max(xs, key=key) on a nonempty list x :: xs. -/
def pyFoldMax (key : α → Nat) (b : α) (xs : List α) : α :=
  xs.foldl (pyMaxStep key) b

/-- PhotoBackup.get_max_size_photo: max(photo['sizes'], key=lambda x:
x['width'] * x['height']).  Python's max raises ValueError on an empty
sequence, modelled as none. -/
def get_max_size_photo (photo : Photo) : Option SizeVariant :=
  match photo.sizes with
  | [] => none
  | x :: xs => some (pyFoldMax sizeKey x xs)

/-- Concrete photo used to instantiate theorems with hypotheses. -/
def photoA : Photo :=
  { sizes := [⟨2, 2, "u1", "s"⟩, ⟨3, 3, "u2", "m"⟩, ⟨3, 3, "u3", "x"⟩],
    likes := 7, date := 0 }

/-- Maximal area of a photo, as computed twice in PhotoBackup.run:
get_max_size_photo(photo)['width'] * get_max_size_photo(photo)['height']. -/
def photoArea (p : Photo) : Option Nat :=
  (get_max_size_photo p).map sizeKey

/-- The list comprehension in PhotoBackup.run building (photo, area) pairs,
evaluated left to right; none models the ValueError raised by max on an empty
size list. -/
def photosWithSizes : List Photo → Option (List (Photo × Nat))
  | [] => some []
  | p :: ps =>
    match get_max_size_photo p with
    | none => none
    | some v =>
      match photosWithSizes ps with
      | none => none
      | some rest => some ((p, sizeKey v) :: rest)

/-- Comparison used to model photos_with_sizes.sort(key=lambda x: x[1],
reverse=True): CPython's sort is stable, and reverse=True reverses the
comparison while keeping equal-key elements in their original order, which is
exactly a stable sort by this flipped comparison. -/
def leArea (a b : Photo × Nat) : Bool :=
  decide (b.2 ≤ a.2)

/-- Result of the sort call in PhotoBackup.run. -/
def sortByArea (pws : List (Photo × Nat)) : List (Photo × Nat) :=
  pws.mergeSort leArea

/-- The top_photos list built in PhotoBackup.run: first 5 pairs of the sorted
list, keeping only the photo component. -/
def top_photos (pws : List (Photo × Nat)) : List Photo :=
  ((sortByArea pws).take 5).map Prod.fst

/-- Concrete six-photo list (distinct areas) for witnesses. -/
def photosB : List Photo :=
  [⟨[⟨1, 1, "a", "s"⟩], 1, 100⟩,
   ⟨[⟨3, 3, "b", "m"⟩], 2, 200⟩,
   ⟨[⟨2, 2, "c", "s"⟩], 3, 300⟩,
   ⟨[⟨5, 5, "d", "z"⟩], 4, 400⟩,
   ⟨[⟨4, 4, "e", "y"⟩], 5, 500⟩,
   ⟨[⟨6, 6, "f", "w"⟩], 6, 600⟩]

/-- Pairs for photosB as computed by photosWithSizes. -/
def pwsB : List (Photo × Nat) :=
  [(⟨[⟨1, 1, "a", "s"⟩], 1, 100⟩, 1),
   (⟨[⟨3, 3, "b", "m"⟩], 2, 200⟩, 9),
   (⟨[⟨2, 2, "c", "s"⟩], 3, 300⟩, 4),
   (⟨[⟨5, 5, "d", "z"⟩], 4, 400⟩, 25),
   (⟨[⟨4, 4, "e", "y"⟩], 5, 500⟩, 16),
   (⟨[⟨6, 6, "f", "w"⟩], 6, 600⟩, 36)]

/-- First photo of the stability witness: area 9, fetched first. -/
def photoC1 : Photo := ⟨[⟨3, 3, "p", "m"⟩], 1, 100⟩

/-- Second photo of the stability witness: area 9, fetched second. -/
def photoC2 : Photo := ⟨[⟨3, 3, "q", "m"⟩], 2, 200⟩

/-- Third photo of the stability witness: area 16. -/
def photoC3 : Photo := ⟨[⟨4, 4, "r", "z"⟩], 3, 300⟩

/-- Fetched order for the stability witness. -/
def photosC : List Photo := [photoC1, photoC2, photoC3]

/-- Pairs for photosC as computed by photosWithSizes. -/
def pwsC : List (Photo × Nat) := [(photoC1, 9), (photoC2, 9), (photoC3, 16)]

/-- Calendar conversion behind datetime.fromtimestamp(ts, timezone.utc):
days since 1970-01-01 to (year, month, day) in the proleptic Gregorian
calendar (the standard civil-from-days algorithm, specialised to Nat since a
VK creation timestamp is on or after the epoch). -/
def civilFromDays (days : Nat) : Nat × Nat × Nat :=
  let z := days + 719468
  let era := z / 146097
  let doe := z % 146097
  let yoe := (doe - doe / 1460 + doe / 36524 - doe / 146096) / 365
  let y := yoe + era * 400
  let doy := doe - (365 * yoe + yoe / 4 - yoe / 100)
  let mp := (5 * doy + 2) / 153
  let d := doy - (153 * mp + 2) / 5 + 1
  let m := if mp < 10 then mp + 3 else mp - 9
  (if m ≤ 2 then y + 1 else y, m, d)

/-- Two-digit zero padding as produced by strftime for %m and %d. -/
def pad2 (n : Nat) : String :=
  if n < 10 then "0" ++ toString n else toString n

/-- Model of datetime.fromtimestamp(ts, timezone.utc).strftime('%Y-%m-%d'). -/
def strfDate (ts : Nat) : String :=
  let c := civilFromDays (ts / 86400)
  toString c.1 ++ "-" ++ pad2 c.2.1 ++ "-" ++ pad2 c.2.2

/-- The f-string building file_name in download_and_upload_photos. -/
def file_name_of (photo : Photo) : String :=
  toString photo.likes ++ "_" ++ strfDate photo.date ++ ".jpg"

/-- Parsed JSON values, as handled by response.json() and json.dump. -/
inductive JVal where
  | null
  | bool (b : Bool)
  | num (n : Int)
  | str (s : String)
  | arr (xs : List JVal)
  | obj (fields : List (String × JVal))

/-- Python's dict.get(key, dflt) on a parsed JSON value: the bound value when
the key is present (even when it is null), the default when absent, and an
AttributeError when the receiver is not a dict. -/
def pyGetD (v : JVal) (key : String) (dflt : JVal) : Except Err JVal :=
  match v with
  | .obj fields =>
    match fields.lookup key with
    | some w => .ok w
    | none => .ok dflt
  | _ => .error .attributeError

/-- Python's one-argument dict.get(key): value when present, None when
absent, AttributeError when the receiver is not a dict. -/
def pyGet (v : JVal) (key : String) : Except Err (Option JVal) :=
  match v with
  | .obj fields => .ok (fields.lookup key)
  | _ => .error .attributeError

/-- Model of requests.Response.raise_for_status: raises HTTPError (the
spec's RemoteServiceError) for status codes of 400 and above. -/
def raiseForStatus (status : Nat) : Except Err Unit :=
  if 400 ≤ status then .error (.httpStatus status) else .ok ()

/-- VK.get_photos after the requests.get call.  The argument is the transport
result: an error for a connection failure, or the status code plus the parsed
JSON body.  Mirrors response.raise_for_status() followed by
response.json().get('response', \x7b\x7d).get('items', []). -/
def vk_get_photos (resp : Except Err (Nat × JVal)) : Except Err JVal :=
  match resp with
  | .error e => .error e
  | .ok (status, body) =>
    match raiseForStatus status with
    | .error e => .error e
    | .ok _ =>
      match pyGetD body "response" (.obj []) with
      | .error e => .error e
      | .ok r => pyGetD r "items" (.arr [])

/-- Environment of the Yandex.Disk client: the transport behaviour of the two
remote endpoints.  getUploadLink is the GET on resources/upload (error =
connection failure; ok = status code and parsed JSON body); put is the PUT to
a destination URL (error = connection failure; ok = status code). -/
structure DiskEnv where
  getUploadLink : String → Except Err (Nat × JVal)
  put : String → Except Err Nat

/-- Outgoing requests recorded while the pipeline runs. -/
inductive Ev where
  | downloadReq (url : String)
  | linkReq (path : String)
  | putReq (href : Option JVal)

/-- YandexDisk.get_upload_link: GET the destination reference, raise for a
non-success status, then return response.json().get('href'), which is None
when the body has no href field. -/
def get_upload_link (env : DiskEnv) (path : String) : Except Err (Option JVal) :=
  match env.getUploadLink path with
  | .error e => .error e
  | .ok (status, body) =>
    match raiseForStatus status with
    | .error e => .error e
    | .ok _ => pyGet body "href"

/-- Model of requests.put(href, ...): with None (or any non-string) as the
URL, requests raises a client-side invalid-URL error before any bytes are
sent; with a string URL the transport runs and yields a status code. -/
def pyPut (env : DiskEnv) (href : Option JVal) : Except Err Nat :=
  match href with
  | some (.str u) => env.put u
  | _ => .error .invalidUrl

/-- YandexDisk.upload_file: obtain the destination reference for
vk_photos/file_name, then issue requests.put twice, checking only the second
status.  The trace records every outgoing request, including a put issued
with an absent destination reference. -/
def upload_file (env : DiskEnv) (fname : String) : Except Err Unit × List Ev :=
  match get_upload_link env ("vk_photos/" ++ fname) with
  | .error e => (.error e, [.linkReq ("vk_photos/" ++ fname)])
  | .ok href =>
    match pyPut env href with
    | .error e => (.error e, [.linkReq ("vk_photos/" ++ fname), .putReq href])
    | .ok _ =>
      match pyPut env href with
      | .error e =>
        (.error e, [.linkReq ("vk_photos/" ++ fname), .putReq href, .putReq href])
      | .ok status2 =>
        match raiseForStatus status2 with
        | .error e =>
          (.error e, [.linkReq ("vk_photos/" ++ fname), .putReq href, .putReq href])
        | .ok _ =>
          (.ok (), [.linkReq ("vk_photos/" ++ fname), .putReq href, .putReq href])

/-- Disk environment whose destination-request succeeds with a body carrying
no href field. -/
def diskEnvNoHref : DiskEnv :=
  { getUploadLink := fun _ => .ok (200, .obj []),
    put := fun _ => .ok 200 }

/-- Disk environment whose destination-request fails at transport level. -/
def diskEnvDown : DiskEnv :=
  { getUploadLink := fun _ => .error .transport,
    put := fun _ => .ok 200 }

/-- One entry appended to photos_info after a successful upload:
\x7b'file_name': file_name, 'size': max_size['type']\x7d. -/
structure ManifestEntry where
  file_name : String
  size : String
deriving DecidableEq, Repr

/-- Environment of the whole pipeline: getPhotos abstracts VK.get_photos
(the parsed photo list, or the error it raises), download abstracts
requests.get on a photo URL (status code, or a transport error), and disk is
the Yandex.Disk client's transport. -/
structure Env where
  getPhotos : String → Except Err (List Photo)
  download : String → Except Err Nat
  disk : DiskEnv

/-- One iteration of the loop in download_and_upload_photos: pick the
maximal variant, derive the file name, download the variant's URL and raise
for status, upload via the disk client, and produce the manifest entry.
Local file writes and removals always succeed and are abstracted away. -/
def download_and_upload_one (env : Env) (photo : Photo) :
    Except Err ManifestEntry × List Ev :=
  match get_max_size_photo photo with
  | none => (.error .valueError, [])
  | some maxv =>
    match env.download maxv.url with
    | .error e => (.error e, [.downloadReq maxv.url])
    | .ok st =>
      match raiseForStatus st with
      | .error e => (.error e, [.downloadReq maxv.url])
      | .ok _ =>
        match upload_file env.disk (file_name_of photo) with
        | (.error e, tr) => (.error e, .downloadReq maxv.url :: tr)
        | (.ok _, tr) =>
          (.ok ⟨file_name_of photo, maxv.type⟩, .downloadReq maxv.url :: tr)

/-- The for-loop of download_and_upload_photos: photos are processed in
order; the first raised error propagates, discarding the photos_info
accumulated so far and processing nothing further. -/
def processList (env : Env) : List Photo → Except Err (List ManifestEntry) × List Ev
  | [] => (.ok [], [])
  | p :: ps =>
    match download_and_upload_one env p with
    | (.error e, tr) => (.error e, tr)
    | (.ok entry, tr) =>
      match processList env ps with
      | (.error e, tr2) => (.error e, tr ++ tr2)
      | (.ok entries, tr2) => (.ok (entry :: entries), tr ++ tr2)

/-- PhotoBackup.download_and_upload_photos with its count parameter
(default 5): processes photos[:count]. -/
def download_and_upload_photos (env : Env) (photos : List Photo) (count : Nat) :
    Except Err (List ManifestEntry) × List Ev :=
  processList env (photos.take count)

/-- PhotoBackup.run: fetch, compute areas, sort, cut at 5, process, then
save_photos_info.  The last component models the manifest file: none when the
run ends before the write (no partial manifest is ever written). -/
def run (env : Env) (user : String) :
    Except Err Unit × List Ev × Option (List ManifestEntry) :=
  match env.getPhotos user with
  | .error e => (.error e, [], none)
  | .ok photos =>
    match photosWithSizes photos with
    | none => (.error .valueError, [], none)
    | some pws =>
      match download_and_upload_photos env (top_photos pws) 5 with
      | (.error e, tr) => (.error e, tr, none)
      | (.ok entries, tr) => (.ok (), tr, some entries)

/-- Disk environment that always succeeds, returning destination "h". -/
def diskEnvOK : DiskEnv :=
  { getUploadLink := fun _ => .ok (200, .obj [("href", .str "h")]),
    put := fun _ => .ok 201 }

/-- Pipeline environment that always succeeds over photosC. -/
def envOK : Env :=
  { getPhotos := fun _ => .ok photosC,
    download := fun _ => .ok 200,
    disk := diskEnvOK }

/-- Manifest entries produced by an error-free run of envOK over photosC. -/
def entriesD : List ManifestEntry :=
  [⟨"3_1970-01-01.jpg", "z"⟩, ⟨"1_1970-01-01.jpg", "m"⟩, ⟨"2_1970-01-01.jpg", "m"⟩]

/-- Request trace of an error-free run of envOK over photosC. -/
def trD : List Ev :=
  [.downloadReq "r", .linkReq "vk_photos/3_1970-01-01.jpg",
   .putReq (some (.str "h")), .putReq (some (.str "h")),
   .downloadReq "p", .linkReq "vk_photos/1_1970-01-01.jpg",
   .putReq (some (.str "h")), .putReq (some (.str "h")),
   .downloadReq "q", .linkReq "vk_photos/2_1970-01-01.jpg",
   .putReq (some (.str "h")), .putReq (some (.str "h"))]

/-- Pipeline environment whose photo download fails at transport level. -/
def envBad : Env :=
  { getPhotos := fun _ => .ok photosC,
    download := fun _ => .error .transport,
    disk := diskEnvOK }

/-- JSON structure of one manifest entry as written by json.dump: an object
with the file_name and size fields, in insertion order. -/
def encodeEntry (en : ManifestEntry) : JVal :=
  .obj [("file_name", .str en.file_name), ("size", .str en.size)]

/-- PhotoBackup.save_photos_info: json.dump writes the JSON structure of the
entry list to the manifest file (the textual rendering and character escaping
are delegated to the json library, whose dump/load pair is inverse on this
structure). -/
def save_photos_info (entries : List ManifestEntry) : JVal :=
  .arr (entries.map encodeEntry)

/-- Reading one entry back from the parsed manifest file. -/
def decodeEntry : JVal → Option ManifestEntry
  | .obj [("file_name", .str f), ("size", .str s)] => some ⟨f, s⟩
  | _ => none

/-- Reading a list of entries back, failing on any malformed element. -/
def parseEntries : List JVal → Option (List ManifestEntry)
  | [] => some []
  | v :: vs =>
    match decodeEntry v with
    | none => none
    | some en =>
      match parseEntries vs with
      | none => none
      | some ens => some (en :: ens)

/-- Reading the manifest file back as the list it serializes. -/
def parseManifest : JVal → Option (List ManifestEntry)
  | .arr xs => parseEntries xs
  | _ => none

/-- Invariant of the fold behind Python's max: the result is either the seed
(when nothing strictly exceeds it) or the first element of the list strictly
exceeding both the seed and everything before it, and in both cases it bounds
every element of the list. -/
theorem pyFoldMax_spec (key : α → Nat) (b : α) (xs : List α) :
    (pyFoldMax key b xs = b ∧ ∀ y ∈ xs, key y ≤ key b) ∨
    (∃ l₁ l₂, xs = l₁ ++ pyFoldMax key b xs :: l₂ ∧
      key b < key (pyFoldMax key b xs) ∧
      (∀ y ∈ l₁, key y < key (pyFoldMax key b xs)) ∧
      (∀ y ∈ xs, key y ≤ key (pyFoldMax key b xs))) := by
  induction xs generalizing b with
  | nil => exact Or.inl ⟨rfl, by simp⟩
  | cons x xs ih =>
    have hfold : pyFoldMax key b (x :: xs) = pyFoldMax key (pyMaxStep key b x) xs := rfl
    by_cases hx : key x > key b
    · have hstep : pyMaxStep key b x = x := by simp [pyMaxStep, hx]
      rcases ih x with ⟨hr, hall⟩ | ⟨l₁, l₂, hsplit, hlt, hbefore, hall⟩
      · refine Or.inr ⟨[], xs, ?_, ?_, ?_, ?_⟩
        · simp [hfold, hstep, hr]
        · rw [hfold, hstep, hr]; exact hx
        · intro y hy; simp at hy
        · intro y hy
          rw [hfold, hstep, hr]
          rcases List.mem_cons.mp hy with h | h
          · exact h ▸ Nat.le_refl _
          · exact hall y h
      · refine Or.inr ⟨x :: l₁, l₂, ?_, ?_, ?_, ?_⟩
        · rw [hfold, hstep]; simpa using hsplit
        · rw [hfold, hstep]; exact Nat.lt_trans hx hlt
        · intro y hy
          rw [hfold, hstep]
          rcases List.mem_cons.mp hy with h | h
          · exact h ▸ hlt
          · exact hbefore y h
        · intro y hy
          rw [hfold, hstep]
          rcases List.mem_cons.mp hy with h | h
          · subst h; exact Nat.le_of_lt hlt
          · exact hall y h
    · have hstep : pyMaxStep key b x = b := by simp [pyMaxStep, hx]
      have hxle : key x ≤ key b := Nat.le_of_not_lt hx
      rcases ih b with ⟨hr, hall⟩ | ⟨l₁, l₂, hsplit, hlt, hbefore, hall⟩
      · refine Or.inl ⟨by rw [hfold, hstep, hr], ?_⟩
        intro y hy
        rcases List.mem_cons.mp hy with h | h
        · exact h ▸ hxle
        · exact hall y h
      · refine Or.inr ⟨x :: l₁, l₂, ?_, ?_, ?_, ?_⟩
        · rw [hfold, hstep]; simpa using hsplit
        · rw [hfold, hstep]; exact hlt
        · intro y hy
          rw [hfold, hstep]
          rcases List.mem_cons.mp hy with h | h
          · exact h ▸ Nat.lt_of_le_of_lt hxle hlt
          · exact hbefore y h
        · intro y hy
          rw [hfold, hstep]
          rcases List.mem_cons.mp hy with h | h
          · exact h ▸ Nat.le_of_lt (Nat.lt_of_le_of_lt hxle hlt)
          · exact hall y h

/-- C2: for every PhotoRecord with at least one SizeVariant,
get_max_size_photo returns the variant maximizing width*height, and when
several variants share that maximum it returns the first such variant in the
original variant order (all variants before it are strictly smaller). -/
theorem get_max_size_photo_first_max (photo : Photo) (h : photo.sizes ≠ []) :
    ∃ v l₁ l₂, get_max_size_photo photo = some v ∧
      photo.sizes = l₁ ++ v :: l₂ ∧
      (∀ u ∈ photo.sizes, sizeKey u ≤ sizeKey v) ∧
      (∀ u ∈ l₁, sizeKey u < sizeKey v) := by
  match hs : photo.sizes with
  | [] => exact absurd hs h
  | x :: xs =>
    have hdef : get_max_size_photo photo = some (pyFoldMax sizeKey x xs) := by
      unfold get_max_size_photo; rw [hs]
    rcases pyFoldMax_spec sizeKey x xs with ⟨hr, hall⟩ | ⟨l₁, l₂, hsplit, hlt, hbefore, hall⟩
    · refine ⟨pyFoldMax sizeKey x xs, [], xs, hdef, by simp [hr], ?_, by simp⟩
      intro u hu
      rw [hr]
      rcases List.mem_cons.mp hu with h' | h'
      · exact h' ▸ Nat.le_refl _
      · exact hall u h'
    · refine ⟨pyFoldMax sizeKey x xs, x :: l₁, l₂, hdef, by simpa using hsplit, ?_, ?_⟩
      · intro u hu
        rcases List.mem_cons.mp hu with h' | h'
        · subst h'; exact Nat.le_of_lt hlt
        · exact hall u h'
      · intro u hu
        rcases List.mem_cons.mp hu with h' | h'
        · exact h' ▸ hlt
        · exact hbefore u h'

/-- Witness for C2 at a concrete photo with a tie among maximal variants. -/
theorem get_max_size_photo_first_max_witness :
    photoA.sizes ≠ [] ∧
    ∃ v l₁ l₂, get_max_size_photo photoA = some v ∧
      photoA.sizes = l₁ ++ v :: l₂ ∧
      (∀ u ∈ photoA.sizes, sizeKey u ≤ sizeKey v) ∧
      (∀ u ∈ l₁, sizeKey u < sizeKey v) :=
  ⟨by decide, get_max_size_photo_first_max photoA (by decide)⟩

/-- Transitivity of the sort comparison. -/
theorem leArea_trans (a b c : Photo × Nat) :
    leArea a b → leArea b c → leArea a c := by
  simp only [leArea, decide_eq_true_eq]
  omega

/-- Totality of the sort comparison. -/
theorem leArea_total (a b : Photo × Nat) : leArea a b || leArea b a := by
  simp only [leArea, Bool.or_eq_true, decide_eq_true_eq]
  omega

/-- Characterisation of the (photo, area) pairs as a map over the fetched
list when every area computation succeeds. -/
theorem photosWithSizes_eq_map :
    ∀ {photos : List Photo} {pws : List (Photo × Nat)},
      photosWithSizes photos = some pws →
      pws = photos.map (fun p => (p, (photoArea p).getD 0)) := by
  intro photos
  induction photos with
  | nil =>
    intro pws h
    simp only [photosWithSizes] at h
    simp [← Option.some.inj h]
  | cons p ps ih =>
    intro pws h
    simp only [photosWithSizes] at h
    cases hgp : get_max_size_photo p with
    | none => rw [hgp] at h; exact absurd h (by simp)
    | some v =>
      rw [hgp] at h
      cases hrest : photosWithSizes ps with
      | none => rw [hrest] at h; exact absurd h (by simp)
      | some rest =>
        rw [hrest] at h
        simp only at h
        rw [← Option.some.inj h, ih hrest]
        simp [photoArea, hgp]

/-- Every computed pair carries exactly its photo's maximal area. -/
theorem photosWithSizes_mem :
    ∀ {photos : List Photo} {pws : List (Photo × Nat)},
      photosWithSizes photos = some pws →
      ∀ pr ∈ pws, photoArea pr.1 = some pr.2 := by
  intro photos
  induction photos with
  | nil =>
    intro pws h pr hpr
    simp only [photosWithSizes] at h
    rw [← Option.some.inj h] at hpr
    exact absurd hpr (by simp)
  | cons p ps ih =>
    intro pws h pr hpr
    simp only [photosWithSizes] at h
    cases hgp : get_max_size_photo p with
    | none => rw [hgp] at h; exact absurd h (by simp)
    | some v =>
      rw [hgp] at h
      cases hrest : photosWithSizes ps with
      | none => rw [hrest] at h; exact absurd h (by simp)
      | some rest =>
        rw [hrest] at h
        simp only at h
        rw [← Option.some.inj h] at hpr
        rcases List.mem_cons.mp hpr with h' | h'
        · rw [h']
          simp [photoArea, hgp]
        · exact ih hrest pr h'

/-- Computing the pairs succeeds when every fetched photo has a variant. -/
theorem photosWithSizes_isSome :
    ∀ {photos : List Photo}, (∀ p ∈ photos, p.sizes ≠ []) →
      ∃ pws, photosWithSizes photos = some pws := by
  intro photos
  induction photos with
  | nil => intro _; exact ⟨[], rfl⟩
  | cons p ps ih =>
    intro h
    obtain ⟨rest, hrest⟩ := ih (fun q hq => h q (List.mem_cons_of_mem p hq))
    have hp : p.sizes ≠ [] := h p (List.mem_cons_self p ps)
    obtain ⟨v, hv⟩ : ∃ v, get_max_size_photo p = some v := by
      cases hs : p.sizes with
      | nil => exact absurd hs hp
      | cons x xs => exact ⟨pyFoldMax sizeKey x xs, by unfold get_max_size_photo; rw [hs]⟩
    refine ⟨(p, sizeKey v) :: rest, ?_⟩
    simp only [photosWithSizes]
    rw [hv, hrest]

/-- C1: for every fetched photo sequence whose area pairs pws were computed,
the selection step of PhotoBackup.run yields exactly min 5 N records, ordered
so that each selected record's maximal width*height is at least the next
one's. -/
theorem run_selects_top5 (photos : List Photo) (pws : List (Photo × Nat))
    (h : photosWithSizes photos = some pws) :
    (top_photos pws).length = min 5 photos.length ∧
    (top_photos pws).Pairwise
      (fun p q => ∃ a b, photoArea p = some a ∧ photoArea q = some b ∧ b ≤ a) := by
  have hlen : pws.length = photos.length := by
    rw [photosWithSizes_eq_map h]; simp
  constructor
  · simp [top_photos, sortByArea, List.length_take, hlen]
  · have hsorted : (sortByArea pws).Pairwise (fun a b => leArea a b = true) := by
      simpa [sortByArea] using
        @List.sorted_mergeSort _ leArea leArea_trans leArea_total pws
    have htake : ((sortByArea pws).take 5).Pairwise (fun a b => leArea a b = true) :=
      List.Pairwise.sublist (List.take_sublist 5 _) hsorted
    simp only [top_photos, List.pairwise_map]
    refine List.Pairwise.imp_of_mem ?_ htake
    intro a b ha hb hle
    have hamem : a ∈ pws := by
      have := (List.take_sublist 5 (sortByArea pws)).mem ha
      simpa [sortByArea, List.mem_mergeSort] using this
    have hbmem : b ∈ pws := by
      have := (List.take_sublist 5 (sortByArea pws)).mem hb
      simpa [sortByArea, List.mem_mergeSort] using this
    refine ⟨a.2, b.2, photosWithSizes_mem h a hamem, photosWithSizes_mem h b hbmem, ?_⟩
    simpa [leArea] using hle

/-- Witness for C1: six photos of distinct areas yield exactly five selected
records, descending by area. -/
theorem run_selects_top5_witness :
    photosWithSizes photosB = some pwsB ∧
    (top_photos pwsB).length = min 5 photosB.length ∧
    (top_photos pwsB).Pairwise
      (fun p q => ∃ a b, photoArea p = some a ∧ photoArea q = some b ∧ b ≤ a) :=
  ⟨by decide, run_selects_top5 photosB pwsB (by decide)⟩

/-- Positions of a two-element sublist: a pair sublist always arises from two
indices in increasing order. -/
theorem pair_sublist_index {α : Type} {a b : α} :
    ∀ {s : List α}, List.Sublist [a, b] s →
      ∃ i j, ∃ (hi : i < s.length) (hj : j < s.length),
        i < j ∧ s.get ⟨i, hi⟩ = a ∧ s.get ⟨j, hj⟩ = b := by
  intro s
  induction s with
  | nil => intro h; exact absurd (List.sublist_nil.mp h) (by simp)
  | cons x s ih =>
    intro h
    cases h with
    | cons _ h' =>
      obtain ⟨i, j, hi, hj, hij, ha, hb⟩ := ih h'
      exact ⟨i + 1, j + 1, by simpa using hi, by simpa using hj, by omega,
        by simpa using ha, by simpa using hb⟩
    | cons₂ _ h' =>
      have hbmem : b ∈ s := h'.mem (by simp)
      obtain ⟨⟨j, hj⟩, hjb⟩ := List.mem_iff_get.mp hbmem
      exact ⟨0, j + 1, by simp, by simpa using hj, by omega, rfl, by simpa using hjb⟩

/-- C9: the selection is stable: whenever two fetched records have equal
maximal area, the earlier one is ranked before the later one in the sorted
list, so at the cut at 5 the earlier one is chosen in preference to the
later. -/
theorem selection_stable (photos : List Photo) (pws : List (Photo × Nat))
    (p q : Photo) (n : Nat)
    (h : photosWithSizes photos = some pws)
    (hsub : List.Sublist [p, q] photos)
    (hp : photoArea p = some n) (hq : photoArea q = some n) :
    List.Sublist [(p, n), (q, n)] (sortByArea pws) ∧
    ∃ i j, ∃ (hi : i < (sortByArea pws).length) (hj : j < (sortByArea pws).length),
      i < j ∧ (sortByArea pws).get ⟨i, hi⟩ = (p, n) ∧
      (sortByArea pws).get ⟨j, hj⟩ = (q, n) ∧ (j < 5 → i < 5) := by
  have hmap := photosWithSizes_eq_map h
  have hsub' : List.Sublist [(p, n), (q, n)] pws := by
    have hm := hsub.map (fun r => (r, (photoArea r).getD 0))
    rw [← hmap] at hm
    simpa [hp, hq] using hm
  have hpair : List.Sublist [(p, n), (q, n)] (sortByArea pws) := by
    show List.Sublist [(p, n), (q, n)] (pws.mergeSort leArea)
    refine List.pair_sublist_mergeSort leArea_trans leArea_total ?_ hsub'
    simp [leArea]
  refine ⟨hpair, ?_⟩
  obtain ⟨i, j, hi, hj, hij, ha, hb⟩ := pair_sublist_index hpair
  exact ⟨i, j, hi, hj, hij, ha, hb, fun h5 => Nat.lt_trans hij h5⟩

/-- Witness for C9 at two equal-area photos. -/
theorem selection_stable_witness :
    photosWithSizes photosC = some pwsC ∧
    List.Sublist [photoC1, photoC2] photosC ∧
    photoArea photoC1 = some 9 ∧ photoArea photoC2 = some 9 ∧
    (List.Sublist [(photoC1, 9), (photoC2, 9)] (sortByArea pwsC) ∧
    ∃ i j, ∃ (hi : i < (sortByArea pwsC).length) (hj : j < (sortByArea pwsC).length),
      i < j ∧ (sortByArea pwsC).get ⟨i, hi⟩ = (photoC1, 9) ∧
      (sortByArea pwsC).get ⟨j, hj⟩ = (photoC2, 9) ∧ (j < 5 → i < 5)) :=
  ⟨by decide,
   List.Sublist.cons₂ _ (List.Sublist.cons₂ _ (List.nil_sublist _)),
   by decide, by decide,
   selection_stable photosC pwsC photoC1 photoC2 9 (by decide)
     (List.Sublist.cons₂ _ (List.Sublist.cons₂ _ (List.nil_sublist _)))
     (by decide) (by decide)⟩

/-- C10: get_max_size_photo fails exactly on a PhotoRecord with no size
variants, and under the invariant that every fetched record has at least one
variant, every record the run applies it to (both in the ranking pass and on
the selected top photos) yields a result. -/
theorem get_max_size_photo_empty_none :
    (∀ p : Photo, get_max_size_photo p = none ↔ p.sizes = []) ∧
    (∀ photos : List Photo, (∀ p ∈ photos, p.sizes ≠ []) →
      ∃ pws, photosWithSizes photos = some pws ∧
        ∀ p ∈ top_photos pws, (get_max_size_photo p).isSome = true) := by
  constructor
  · intro p
    constructor
    · intro h
      cases hs : p.sizes with
      | nil => rfl
      | cons x xs =>
        rw [show get_max_size_photo p = some (pyFoldMax sizeKey x xs) by
          unfold get_max_size_photo; rw [hs]] at h
        exact absurd h (by simp)
    · intro h; unfold get_max_size_photo; rw [h]
  · intro photos hne
    obtain ⟨pws, hpws⟩ := photosWithSizes_isSome hne
    refine ⟨pws, hpws, ?_⟩
    intro p hp
    simp only [top_photos, List.mem_map] at hp
    obtain ⟨pr, hprmem, hpr⟩ := hp
    have hprpws : pr ∈ pws := by
      have hm := (List.take_sublist 5 (sortByArea pws)).mem hprmem
      simpa [sortByArea, List.mem_mergeSort] using hm
    have harea := photosWithSizes_mem hpws pr hprpws
    rw [← hpr]
    simp only [photoArea] at harea
    cases hg : get_max_size_photo pr.1 with
    | none => rw [hg] at harea; exact absurd harea (by simp)
    | some v => simp [hg]

/-- Witness for C10 on the concrete six-photo list. -/
theorem get_max_size_photo_empty_none_witness :
    (∀ p ∈ photosB, p.sizes ≠ []) ∧
    ∃ pws, photosWithSizes photosB = some pws ∧
      ∀ p ∈ top_photos pws, (get_max_size_photo p).isSome = true :=
  ⟨by decide, get_max_size_photo_empty_none.2 photosB (by decide)⟩

/-- C3: the derived file name is the like count, an underscore, the creation
timestamp as YYYY-MM-DD in UTC, and the suffix .jpg; in particular likes 42
with timestamp 1626343200 (2021-07-15T10:00:00Z) gives 42_2021-07-15.jpg. -/
theorem file_name_format :
    (∀ p : Photo, file_name_of p =
      toString p.likes ++ "_" ++ strfDate p.date ++ ".jpg") ∧
    file_name_of ⟨[⟨1, 1, "u", "w"⟩], 42, 1626343200⟩ = "42_2021-07-15.jpg" :=
  ⟨fun _ => rfl, by decide⟩

/-- Counterexample to C7 as stated: the service reports success (status 200)
with a malformed payload carrying no photo list ('response' bound to null),
yet get_photos raises an AttributeError instead of returning an empty
sequence, and in particular does not return the empty list. -/
theorem vk_get_photos_malformed_raises :
    vk_get_photos (.ok (200, .obj [("response", JVal.null)])) =
      .error .attributeError ∧
    vk_get_photos (.ok (200, .obj [("response", JVal.null)])) ≠
      .ok (JVal.arr []) :=
  ⟨rfl, fun h => Except.noConfusion h⟩

/-- C7 (amended): get_photos fails with a RemoteServiceError exactly when
the transport fails or the status is non-success; on a success status it
never produces a RemoteServiceError; when the body is an object whose
'response' field is absent, or whose 'response' field is an object lacking
'items', it returns the empty list; but when 'response' is bound to a
non-object value it raises an AttributeError rather than returning empty. -/
theorem vk_get_photos_errors :
    (∀ e, vk_get_photos (.error e) = .error e) ∧
    (∀ status body, 400 ≤ status →
      vk_get_photos (.ok (status, body)) = .error (.httpStatus status)) ∧
    (∀ status body e, status < 400 →
      vk_get_photos (.ok (status, body)) = .error e → e = .attributeError) ∧
    (∀ status fields, status < 400 → fields.lookup "response" = none →
      vk_get_photos (.ok (status, .obj fields)) = .ok (.arr [])) ∧
    (∀ status fields rf, status < 400 →
      fields.lookup "response" = some (.obj rf) → rf.lookup "items" = none →
      vk_get_photos (.ok (status, .obj fields)) = .ok (.arr [])) ∧
    (∀ status fields, status < 400 → fields.lookup "response" = some .null →
      vk_get_photos (.ok (status, .obj fields)) = .error .attributeError) := by
  have hstat : ∀ status, status < 400 → raiseForStatus status = .ok () := by
    intro status h
    simp [raiseForStatus, Nat.not_le.mpr h]
  refine ⟨fun e => rfl, ?_, ?_, ?_, ?_, ?_⟩
  · intro status body h
    simp [vk_get_photos, raiseForStatus, h]
  · intro status body e h herr
    simp only [vk_get_photos, hstat status h] at herr
    cases body with
    | obj fields =>
      simp only [pyGetD] at herr
      cases hlk : fields.lookup "response" with
      | none =>
        rw [hlk] at herr
        simp only [pyGetD] at herr
        cases herr
      | some r =>
        rw [hlk] at herr
        simp only at herr
        cases r with
        | obj rf =>
          simp only [pyGetD] at herr
          cases hlk2 : rf.lookup "items" with
          | none => rw [hlk2] at herr; cases herr
          | some w => rw [hlk2] at herr; cases herr
        | null => simp only [pyGetD] at herr; exact (Except.error.inj herr).symm
        | bool b => simp only [pyGetD] at herr; exact (Except.error.inj herr).symm
        | num n => simp only [pyGetD] at herr; exact (Except.error.inj herr).symm
        | str s => simp only [pyGetD] at herr; exact (Except.error.inj herr).symm
        | arr xs => simp only [pyGetD] at herr; exact (Except.error.inj herr).symm
    | null => simp only [pyGetD] at herr; exact (Except.error.inj herr).symm
    | bool b => simp only [pyGetD] at herr; exact (Except.error.inj herr).symm
    | num n => simp only [pyGetD] at herr; exact (Except.error.inj herr).symm
    | str s => simp only [pyGetD] at herr; exact (Except.error.inj herr).symm
    | arr xs => simp only [pyGetD] at herr; exact (Except.error.inj herr).symm
  · intro status fields h hlk
    simp [vk_get_photos, hstat status h, pyGetD, hlk]
  · intro status fields rf h hlk hitems
    simp [vk_get_photos, hstat status h, pyGetD, hlk, hitems]
  · intro status fields h hlk
    simp [vk_get_photos, hstat status h, pyGetD, hlk]

/-- Witness for the amended C7 at concrete responses: a 404 yields the
HTTPError, and a success response whose object body lacks 'response' yields
the empty list. -/
theorem vk_get_photos_errors_witness :
    (400 ≤ 404 ∧ vk_get_photos (.ok (404, JVal.null)) = .error (.httpStatus 404)) ∧
    (200 < 400 ∧ ([] : List (String × JVal)).lookup "response" = none ∧
      vk_get_photos (.ok (200, .obj [])) = .ok (.arr [])) :=
  ⟨⟨by decide, vk_get_photos_errors.2.1 404 JVal.null (by decide)⟩,
   ⟨by decide, rfl, vk_get_photos_errors.2.2.2.1 200 [] (by decide) rfl⟩⟩

/-- Counterexample to C6 as stated: the destination-request phase succeeds
but returns no write-destination reference, and the client does not fail
fast: it attempts a transfer call (a putReq with an absent reference appears
in the trace) and the failure is the client-side invalid-URL error, not a
RemoteServiceError status or transport error. -/
theorem upload_file_no_href_attempts_put :
    upload_file diskEnvNoHref "f.jpg" =
      (.error .invalidUrl, [.linkReq "vk_photos/f.jpg", .putReq none]) := rfl

/-- C6 (amended): if the destination-request phase fails (transport failure
or non-success status), the upload fails with that error and no transfer
call is attempted; if the phase succeeds but yields no destination
reference, the client nevertheless issues one transfer call with the absent
reference, which fails with the client-side invalid-URL error before any
payload bytes are sent. -/
theorem upload_file_link_failure (env : DiskEnv) (fname : String) :
    (∀ e, get_upload_link env ("vk_photos/" ++ fname) = .error e →
      upload_file env fname = (.error e, [.linkReq ("vk_photos/" ++ fname)])) ∧
    (get_upload_link env ("vk_photos/" ++ fname) = .ok none →
      upload_file env fname =
        (.error .invalidUrl,
         [.linkReq ("vk_photos/" ++ fname), .putReq none])) := by
  constructor
  · intro e h
    unfold upload_file
    rw [h]
  · intro h
    unfold upload_file
    rw [h]
    rfl

/-- Witness for the amended C6: the fail-fast branch at a transport failure,
and the no-reference branch at a success response lacking href. -/
theorem upload_file_link_failure_witness :
    (get_upload_link diskEnvDown ("vk_photos/" ++ "a.jpg") = .error .transport ∧
      upload_file diskEnvDown "a.jpg" =
        (.error .transport, [.linkReq ("vk_photos/" ++ "a.jpg")])) ∧
    (get_upload_link diskEnvNoHref ("vk_photos/" ++ "a.jpg") = .ok none ∧
      upload_file diskEnvNoHref "a.jpg" =
        (.error .invalidUrl,
         [.linkReq ("vk_photos/" ++ "a.jpg"), .putReq none])) :=
  ⟨⟨rfl, (upload_file_link_failure diskEnvDown "a.jpg").1 .transport rfl⟩,
   ⟨rfl, (upload_file_link_failure diskEnvNoHref "a.jpg").2 rfl⟩⟩

/-- Shape of a successful iteration: the entry names the photo's file and
carries the maximal variant's label. -/
theorem download_and_upload_one_ok (env : Env) (p : Photo)
    (entry : ManifestEntry) (tr : List Ev)
    (h : download_and_upload_one env p = (.ok entry, tr)) :
    ∃ v, get_max_size_photo p = some v ∧ entry = ⟨file_name_of p, v.type⟩ := by
  unfold download_and_upload_one at h
  cases hg : get_max_size_photo p with
  | none => rw [hg] at h; simp at h
  | some maxv =>
    rw [hg] at h
    simp only at h
    cases hd : env.download maxv.url with
    | error e => rw [hd] at h; simp at h
    | ok st =>
      rw [hd] at h
      simp only at h
      cases hs : raiseForStatus st with
      | error e => rw [hs] at h; simp at h
      | ok u =>
        rw [hs] at h
        simp only at h
        rcases hup : upload_file env.disk (file_name_of p) with ⟨r, tr2⟩
        rw [hup] at h
        cases r with
        | error e => simp at h
        | ok u2 =>
          simp only at h
          injection h with h1 h2
          injection h1 with h3
          exact ⟨maxv, rfl, h3.symm⟩

/-- Shape of an error-free loop: entries correspond one to one, in order,
to the processed photos. -/
theorem processList_ok (env : Env) :
    ∀ (ps : List Photo) (entries : List ManifestEntry) (tr : List Ev),
      processList env ps = (.ok entries, tr) →
      List.Forall₂ (fun p en => ∃ v, get_max_size_photo p = some v ∧
        en = ⟨file_name_of p, v.type⟩) ps entries := by
  intro ps
  induction ps with
  | nil =>
    intro entries tr h
    simp only [processList] at h
    injection h with h1 h2
    injection h1 with h3
    rw [← h3]
    exact List.Forall₂.nil
  | cons p ps ih =>
    intro entries tr h
    simp only [processList] at h
    rcases h1 : download_and_upload_one env p with ⟨r1, tr1⟩
    rw [h1] at h
    cases r1 with
    | error e => simp at h
    | ok entry =>
      rcases h2 : processList env ps with ⟨r2, tr2⟩
      rw [h2] at h
      cases r2 with
      | error e => simp at h
      | ok rest =>
        simp only at h
        injection h with h3 h4
        injection h3 with h5
        rw [← h5]
        exact List.Forall₂.cons
          (download_and_upload_one_ok env p entry tr1 h1) (ih rest tr2 h2)

/-- C4: after an error-free run over the K selected photos, the serialized
manifest holds exactly K entries, in processing order, and each entry's size
field is the size-class label (type) of the maximal variant that was
downloaded and uploaded for that photo. -/
theorem run_manifest_entries (env : Env) (user : String) (photos : List Photo)
    (pws : List (Photo × Nat)) (entries : List ManifestEntry) (tr : List Ev)
    (hg : env.getPhotos user = .ok photos)
    (hpws : photosWithSizes photos = some pws)
    (hok : download_and_upload_photos env (top_photos pws) 5 = (.ok entries, tr)) :
    run env user = (.ok (), tr, some entries) ∧
    entries.length = (top_photos pws).length ∧
    List.Forall₂ (fun p en => ∃ v, get_max_size_photo p = some v ∧
      en = ⟨file_name_of p, v.type⟩) (top_photos pws) entries := by
  have hfa := processList_ok env ((top_photos pws).take 5) entries tr hok
  have hfa5 : List.Forall₂ (fun p en => ∃ v, get_max_size_photo p = some v ∧
      en = ⟨file_name_of p, v.type⟩) (top_photos pws) entries := by
    have htake : (top_photos pws).take 5 = top_photos pws := by
      apply List.take_of_length_le
      simp [top_photos]
    rw [htake] at hfa
    exact hfa
  refine ⟨?_, (List.Forall₂.length_eq hfa5).symm, hfa5⟩
  unfold run
  split
  · next e heq => rw [heq] at hg; exact Except.noConfusion hg
  · next photos2 heq =>
    rw [heq] at hg
    injection hg with h2
    subst h2
    split
    · next heq2 => rw [heq2] at hpws; exact Option.noConfusion hpws
    · next pws2 heq2 =>
      rw [heq2] at hpws
      injection hpws with h3
      subst h3
      split
      · next e tr3 heq3 =>
        rw [hok] at heq3
        injection heq3 with h4 h5
        exact Except.noConfusion h4
      · next entries2 tr3 heq3 =>
        rw [hok] at heq3
        injection heq3 with h4 h5
        injection h4 with h6
        rw [h5, h6]

/-- C5: if any client operation fails while processing the selected photos,
the whole run aborts at that photo: the error surfaces unchanged, nothing
after the failing operation executes (the failing photo's partial trace is
the loop's entire remaining trace), and no manifest file is written, not
even a partial one for the photos already processed. -/
theorem run_aborts_on_error (env : Env) (user : String) (photos : List Photo)
    (pws : List (Photo × Nat)) (e : Err) (tr : List Ev)
    (hg : env.getPhotos user = .ok photos)
    (hpws : photosWithSizes photos = some pws)
    (herr : download_and_upload_photos env (top_photos pws) 5 = (.error e, tr)) :
    run env user = (.error e, tr, none) ∧
    (∀ (p : Photo) (ps : List Photo) (e2 : Err) (tr2 : List Ev),
      download_and_upload_one env p = (.error e2, tr2) →
      processList env (p :: ps) = (.error e2, tr2)) := by
  constructor
  · unfold run
    split
    · next e3 heq => rw [heq] at hg; exact Except.noConfusion hg
    · next photos2 heq =>
      rw [heq] at hg
      injection hg with h2
      subst h2
      split
      · next heq2 => rw [heq2] at hpws; exact Option.noConfusion hpws
      · next pws2 heq2 =>
        rw [heq2] at hpws
        injection hpws with h3
        subst h3
        split
        · next e3 tr3 heq3 =>
          rw [herr] at heq3
          injection heq3 with h4 h5
          injection h4 with h6
          rw [h5, h6]
        · next entries2 tr3 heq3 =>
          rw [herr] at heq3
          injection heq3 with h4 h5
          exact Except.noConfusion h4
  · intro p ps e2 tr2 h
    unfold processList
    rw [h]

unseal List.merge List.mergeSort in
/-- Witness for C4 on a concrete error-free run over three photos. -/
theorem run_manifest_entries_witness :
    envOK.getPhotos "u" = .ok photosC ∧
    photosWithSizes photosC = some pwsC ∧
    download_and_upload_photos envOK (top_photos pwsC) 5 = (.ok entriesD, trD) ∧
    (run envOK "u" = (.ok (), trD, some entriesD) ∧
     entriesD.length = (top_photos pwsC).length ∧
     List.Forall₂ (fun p en => ∃ v, get_max_size_photo p = some v ∧
       en = ⟨file_name_of p, v.type⟩) (top_photos pwsC) entriesD) :=
  ⟨rfl, rfl, rfl,
   run_manifest_entries envOK "u" photosC pwsC entriesD trD rfl rfl rfl⟩

unseal List.merge List.mergeSort in
/-- Witness for C5: the first selected photo's download fails, the run
surfaces that error with no manifest written, and a failing photo ends the
loop with the remaining photos untouched. -/
theorem run_aborts_on_error_witness :
    envBad.getPhotos "u" = .ok photosC ∧
    photosWithSizes photosC = some pwsC ∧
    download_and_upload_photos envBad (top_photos pwsC) 5 =
      (.error .transport, [Ev.downloadReq "r"]) ∧
    run envBad "u" = (.error .transport, [Ev.downloadReq "r"], none) ∧
    (download_and_upload_one envBad photoC3 =
       (.error .transport, [Ev.downloadReq "r"]) →
     processList envBad [photoC3, photoC1] =
       (.error .transport, [Ev.downloadReq "r"])) :=
  ⟨rfl, rfl, rfl,
   (run_aborts_on_error envBad "u" photosC pwsC .transport
     [Ev.downloadReq "r"] rfl rfl rfl).1,
   (run_aborts_on_error envBad "u" photosC pwsC .transport
     [Ev.downloadReq "r"] rfl rfl rfl).2 photoC3 [photoC1] .transport
     [Ev.downloadReq "r"]⟩

/-- C8: serializing any manifest entry list with save_photos_info and
parsing the written JSON back yields the original list, in order and in
every field value. -/
theorem manifest_round_trip (entries : List ManifestEntry) :
    parseManifest (save_photos_info entries) = some entries := by
  induction entries with
  | nil => rfl
  | cons en rest ih =>
    have hd : decodeEntry (encodeEntry en) = some en := by cases en; rfl
    have ih2 : parseEntries (rest.map encodeEntry) = some rest := ih
    simp only [save_photos_info, List.map_cons, parseManifest, parseEntries]
    rw [hd, ih2]
